import Mathlib

/-!
Verification of the idb-store library (a promise-based wrapper over the
browser's IndexedDB engine) against its natural-language specification.

The embedding translates the final iteration of the source
(`src/unnamed/part_000`, the file containing the `IDBStore` class with a
separate `IDBDatabase` class) together with, where a claim cites it, the
earlier iteration `src/src/index.ts`.  The asynchronous, callback-based
IndexedDB engine is an external collaborator (spec section 6); it is
modelled here as a pure state machine: an object store is a list of
key/value records kept in ascending primary-key order, a transaction is a
state transformer that either commits its records or rolls them back
atomically, and a cursor is the ascending enumeration of the in-range
records.  The single-threaded cooperative scheduling model (spec section 5)
lets each public call, which opens its own private transaction, be modelled
as one atomic step on the engine state.
-/

namespace IdbSpec

/-- Primary keys of the store.  IndexedDB keys are linearly ordered; `Nat`
models that order. -/
abbrev Key := Nat

/-- The records of one object store, in ascending primary-key order (the
order in which the engine stores and enumerates them). -/
abbrev Records (V : Type) := List (Key × V)

/-- Well-formedness invariant maintained by the engine: records are in
strictly ascending primary-key order. -/
def RecordsSorted {V : Type} (rs : Records V) : Prop :=
  List.Pairwise (fun a b => a.1 < b.1) rs

instance {V : Type} (rs : Records V) : Decidable (RecordsSorted rs) :=
  inferInstanceAs (Decidable (List.Pairwise _ rs))

/-- Model of an IDBKeyRange: optional lower and upper bounds, each with an
open (exclusive) flag, as produced by only / lowerBound / upperBound /
bound. -/
structure KeyRange where
  lower : Option Key := none
  upper : Option Key := none
  lowerOpen : Bool := false
  upperOpen : Bool := false
  deriving DecidableEq, Repr

/-- Membership of a key in a key range. -/
def KeyRange.memB (r : KeyRange) (k : Key) : Bool :=
  (match r.lower with
   | none => true
   | some lo => if r.lowerOpen then decide (lo < k) else decide (lo ≤ k)) &&
  (match r.upper with
   | none => true
   | some hi => if r.upperOpen then decide (k < hi) else decide (k ≤ hi))

/-- Membership in an optional key range; no range means every key matches. -/
def rangeMem (r : Option KeyRange) (k : Key) : Bool :=
  match r with
  | none => true
  | some kr => kr.memB k

/-- Engine primitive IDBObjectStore.get: the value stored at a key, or none
(JavaScript undefined) when the key is absent. -/
def idbGet {V : Type} (k : Key) : Records V → Option V
  | [] => none
  | (k', v) :: rest => if k = k' then some v else idbGet k rest

/-- Engine primitive IDBObjectStore.put: upsert of a value at a key,
keeping the records in ascending key order. -/
def idbPut {V : Type} (k : Key) (v : V) : Records V → Records V
  | [] => [(k, v)]
  | (k', v') :: rest =>
    if k < k' then (k, v) :: (k', v') :: rest
    else if k = k' then (k, v) :: rest
    else (k', v') :: idbPut k v rest

/-- Engine primitive IDBObjectStore.delete: removes the record at a key;
a no-op when the key is absent. -/
def idbDelete {V : Type} (k : Key) (rs : Records V) : Records V :=
  rs.filter (fun p => decide (p.1 ≠ k))

/-- Engine primitive IDBObjectStore.clear: removes all records. -/
def idbClear {V : Type} (_ : Records V) : Records V := []

/-- Engine cursor sequence for IDBObjectStore.openCursor(range) followed by
repeated continue(): the in-range records in the order the store holds
them (ascending primary key). -/
def engineCursor {V : Type} (range : Option KeyRange) (rs : Records V) :
    Records V :=
  rs.filter (fun p => rangeMem range p.1)

/-- The order of an IDBIndex over the store: ascending index key, ties
broken by ascending primary key (the IndexedDB index record order). -/
def indexLe {V : Type} (ix : V → Key) (a b : Key × V) : Bool :=
  decide (ix a.2 < ix b.2) || (decide (ix a.2 = ix b.2) && decide (a.1 ≤ b.1))

/-- The records as enumerated by a secondary index: sorted by index key,
ties by primary key. -/
def engineIndexSeq {V : Type} (ix : V → Key) (rs : Records V) : Records V :=
  rs.mergeSort (indexLe ix)

/-- Engine cursor sequence for IDBIndex.openCursor(range): the records
whose index key is in range, in index order. -/
def engineIndexCursor {V : Type} (ix : V → Key) (range : Option KeyRange)
    (rs : Records V) : Records V :=
  (engineIndexSeq ix rs).filter (fun p => rangeMem range (ix p.2))

/-- Engine primitive IDBIndex.get(value): the first record in index order
whose index key equals the value, or none. -/
def idbIndexGet {V : Type} (ix : V → Key) (value : Key) (rs : Records V) :
    Option V :=
  ((engineIndexSeq ix rs).find? (fun p => decide (ix p.2 = value))).map (·.2)

/-! ### The Request Bridge (promisify, src/unnamed/part_000 lines 1 to 8)

The engine signals completion of a request or transaction through the
callback pairs onsuccess/onerror and oncomplete/onabort.  `promisify`
installs `oncomplete = onsuccess = resolve(request.result)` and
`onabort = onerror = reject(request.error)` on the handle.  A JavaScript
promise settles at most once: resolve and reject are no-ops on an already
settled promise.  The model folds the sequence of signals the engine fires
over the promise state. -/

/-- A completion signal fired by the engine on a request or transaction
handle. -/
inductive Signal where
  | success
  | complete
  | error
  | abort
  deriving DecidableEq, Repr

/-- The handle passed to promisify: its result property (none models
undefined, which is what reading result of a plain IDBTransaction yields)
and its error property. -/
structure ReqHandle (V E : Type) where
  result : Option V
  error : E

/-- The state of a JavaScript promise. -/
inductive PState (V E : Type) where
  | pending
  | resolved (v : Option V)
  | rejected (e : E)
  deriving DecidableEq, Repr

/-- JavaScript resolve: settles a pending promise, no-op afterwards. -/
def resolveP {V E : Type} (v : Option V) : PState V E → PState V E
  | .pending => .resolved v
  | s => s

/-- JavaScript reject: settles a pending promise, no-op afterwards. -/
def rejectP {V E : Type} (e : E) : PState V E → PState V E
  | .pending => .rejected e
  | s => s

/-- One signal handled by the callbacks promisify installs (lines 3 to 6):
success and complete call resolve(request.result); error and abort call
reject(request.error). -/
def promisifyStep {V E : Type} (h : ReqHandle V E) (s : PState V E) :
    Signal → PState V E
  | .success => resolveP h.result s
  | .complete => resolveP h.result s
  | .error => rejectP h.error s
  | .abort => rejectP h.error s

/-- The promise produced by promisify after the engine has fired a sequence
of signals on the handle. -/
def promisifyRun {V E : Type} (h : ReqHandle V E) (sigs : List Signal) :
    PState V E :=
  sigs.foldl (promisifyStep h) .pending

/-! ### The store handle (class IDBStore, src/unnamed/part_000 lines 14 to 214) -/

/-- Transaction access mode. -/
inductive Mode where
  | readonly
  | readwrite
  deriving DecidableEq, Repr

/-- One index declaration as passed to createIndex: name, key path, and the
options (uniqueness flag).  Matches the tuples of IDBStoreOptions.indexes. -/
structure IndexDecl where
  name : String
  keyPath : String
  unique : Bool := false
  deriving DecidableEq, Repr

/-- IDBStoreOptions (lines 9 to 12): an optional in-line key path and the
index declarations. -/
structure IDBStoreOptions where
  keyPath : Option String := none
  indexes : List IndexDecl := []
  deriving DecidableEq, Repr

/-- The IDBStore class state: its name, its declared options, and whether
register(db) has run.  Before register, the private store and storeIndex
fields are functions that throw a not-initialized error (lines 16 to 29);
`registered` is false in that state and true after register (lines 58
to 66) replaces them with transaction-opening closures over the live
connection. -/
structure IDBStore where
  name : String
  options : IDBStoreOptions := {}
  registered : Bool := false
  deriving DecidableEq, Repr

/-- register(db) (lines 58 to 66): installs the transaction-opening
closures bound to the live connection. -/
def IDBStore.register (h : IDBStore) : IDBStore :=
  { h with registered := true }

/-- The state of the live connection a registered store handle operates on:
the store's records, the key extraction of the store's in-line key path
(used by put when no explicit key is supplied), the key extraction of each
named secondary index, and the log of transactions opened so far (most
recent first, each entry the mode it was opened in). -/
structure EngineState (V : Type) where
  records : Records V
  keyOf : V → Key
  indexKeyOf : String → V → Key
  txnLog : List Mode := []

/-- The private store field of IDBStore.  Registered (lines 61 to 62), it
opens one transaction via db.transaction(name, mode).objectStore(name) and
runs the callback on it; the engine then commits the records the
transaction body produced, or rolls them back if the transaction aborted
(a request error inside it).  Unregistered (lines 16 to 21), it throws
an IDBStore not-initialized error naming the store, opening no
transaction. -/
def IDBStore.store {V α : Type} (h : IDBStore) (mode : Mode)
    (cb : EngineState V → Except String (α × Records V))
    (st : EngineState V) : Except String α × EngineState V :=
  if h.registered then
    let st₁ := { st with txnLog := mode :: st.txnLog }
    match cb st₁ with
    | .ok (a, rs) => (.ok a, { st₁ with records := rs })
    | .error e => (.error e, st₁)
  else
    (.error ("IDBStore " ++ h.name ++ " is not initialized"), st)

/-- The private storeIndex field of IDBStore.  Registered (lines 64 to 65),
it delegates to store, giving the callback the named index of the object
store.  Unregistered (lines 23 to 29), it throws an IDBStoreIndex
not-initialized error naming the store. -/
def IDBStore.storeIndex {V α : Type} (h : IDBStore) (mode : Mode)
    (indexName : String)
    (cb : String → EngineState V → Except String (α × Records V))
    (st : EngineState V) : Except String α × EngineState V :=
  if h.registered then
    h.store mode (cb indexName) st
  else
    (.error ("IDBStoreIndex " ++ h.name ++ " is not initialized"), st)

/-- get(key) (lines 73 to 75): a readonly transaction around
promisify(store.get(key)). -/
def IDBStore.get {V : Type} (h : IDBStore) (k : Key) (st : EngineState V) :
    Except String (Option V) × EngineState V :=
  h.store .readonly (fun s => .ok (idbGet k s.records, s.records)) st

/-- getByIndex(indexName, indexValue) (lines 82 to 88): a readonly
transaction around promisify(index.get(indexValue)). -/
def IDBStore.getByIndex {V : Type} (h : IDBStore) (indexName : String)
    (value : Key) (st : EngineState V) :
    Except String (Option V) × EngineState V :=
  h.storeIndex .readonly indexName
    (fun ixn s => .ok (idbIndexGet (s.indexKeyOf ixn) value s.records, s.records)) st

/-- set(value, key?) (lines 96 to 101): a readwrite transaction issuing
store.put(value, key) and resolving on promisify(store.transaction).  The
engine keys the record by the explicit key when given, else by the store's
in-line key path. -/
def IDBStore.set {V : Type} (h : IDBStore) (v : V) (k : Option Key)
    (st : EngineState V) : Except String Unit × EngineState V :=
  h.store .readwrite
    (fun s => .ok ((), idbPut (k.getD (s.keyOf v)) v s.records)) st

/-- getMany(keys) (lines 108 to 110): a readonly transaction issuing one
get per key and resolving on Promise.all of the promisified requests; the
result order matches the input key order. -/
def IDBStore.getMany {V : Type} (h : IDBStore) (ks : List Key)
    (st : EngineState V) :
    Except String (List (Option V)) × EngineState V :=
  h.store .readonly
    (fun s => .ok (ks.map (fun k => idbGet k s.records), s.records)) st

/-- The puts issued by setMany inside its transaction, in batch order, each
keyed by the store's in-line key path (store.put(entry) with no explicit
key).  The engine may fail any one request: failIdx gives the index of the
put whose request errors, which aborts the whole transaction. -/
def putBatch {V : Type} (keyOf : V → Key) (failIdx : Option Nat) :
    List V → Nat → Records V → Except String (Records V)
  | [], _, rs => .ok rs
  | v :: rest, i, rs =>
    if failIdx = some i then .error "RequestFailed: put"
    else putBatch keyOf failIdx rest (i + 1) (idbPut (keyOf v) v rs)

/-- The cumulative effect of the batch of puts when no request fails: each
value upserted in order, keyed by the in-line key path. -/
def putFold {V : Type} (keyOf : V → Key) (vs : List V) (rs : Records V) :
    Records V :=
  vs.foldl (fun acc v => idbPut (keyOf v) v acc) rs

/-- setMany(values) (lines 117 to 122): a readwrite transaction issuing
store.put(entry) for every value and resolving on
promisify(store.transaction).  failIdx injects an engine failure on the
put request with that index; the failure aborts the transaction, so the
engine rolls the records back. -/
def IDBStore.setMany {V : Type} (h : IDBStore) (vs : List V)
    (failIdx : Option Nat) (st : EngineState V) :
    Except String Unit × EngineState V :=
  h.store .readwrite
    (fun s => (putBatch s.keyOf failIdx vs 0 s.records).map (fun rs => ((), rs)))
    st

/-- update(value) (lines 129 to 134): a readwrite transaction issuing
store.put(value) keyed by the in-line key path, resolving on
promisify(store.transaction). -/
def IDBStore.update {V : Type} (h : IDBStore) (v : V) (st : EngineState V) :
    Except String Unit × EngineState V :=
  h.store .readwrite (fun s => .ok ((), idbPut (s.keyOf v) v s.records)) st

/-- del(key) (lines 141 to 146): a readwrite transaction issuing
store.delete(key), resolving on promisify(store.transaction). -/
def IDBStore.del {V : Type} (h : IDBStore) (k : Key) (st : EngineState V) :
    Except String Unit × EngineState V :=
  h.store .readwrite (fun s => .ok ((), idbDelete k s.records)) st

/-- clear() (lines 152 to 157): a readwrite transaction issuing
store.clear(), resolving on promisify(store.transaction). -/
def IDBStore.clear {V : Type} (h : IDBStore) (st : EngineState V) :
    Except String Unit × EngineState V :=
  h.store .readwrite (fun s => .ok ((), idbClear s.records)) st

/-- The cursor continuation loop (lines 165 to 172 and 180 to 187): on each
onsuccess, if the cursor is null the walk's promise resolves with the
accumulated state; otherwise the visitor is invoked on the current record
and the cursor explicitly advanced with continue(). -/
def cursorLoop {V σ : Type} (visit : Key × V → σ → σ) :
    Records V → σ → σ
  | [], s => s
  | c :: rest, s => cursorLoop visit rest (visit c s)

/-- cursor(callback, keyRange?) (lines 162 to 175): a readonly transaction
opening store.openCursor(keyRange) and running the continuation loop; the
returned promise resolves when the cursor is exhausted. -/
def IDBStore.cursor {V σ : Type} (h : IDBStore) (visit : Key × V → σ → σ)
    (s0 : σ) (range : Option KeyRange) (st : EngineState V) :
    Except String σ × EngineState V :=
  h.store .readonly
    (fun s => .ok (cursorLoop visit (engineCursor range s.records) s0, s.records))
    st

/-- cursorIndex(indexName, callback, keyRange?) (lines 177 to 190): a
readonly transaction opening index.openCursor(keyRange) and running the
continuation loop in index order. -/
def IDBStore.cursorIndex {V σ : Type} (h : IDBStore) (indexName : String)
    (visit : Key × V → σ → σ) (s0 : σ) (range : Option KeyRange)
    (st : EngineState V) : Except String σ × EngineState V :=
  h.storeIndex .readonly indexName
    (fun ixn s =>
      .ok (cursorLoop visit
            (engineIndexCursor (s.indexKeyOf ixn) range s.records) s0,
           s.records))
    st

/-- getAll(keyRange?) (lines 196 to 200): drives cursor with a visitor that
pushes cursor.value, then resolves with the accumulated items. -/
def IDBStore.getAll {V : Type} (h : IDBStore) (range : Option KeyRange)
    (st : EngineState V) : Except String (List V) × EngineState V :=
  h.cursor (fun c items => items ++ [c.2]) [] range st

/-- getAllByIndex(indexName, keyRange?) (lines 209 to 213): drives
cursorIndex with a visitor that pushes cursor.value, then resolves with the
accumulated items. -/
def IDBStore.getAllByIndex {V : Type} (h : IDBStore) (indexName : String)
    (range : Option KeyRange) (st : EngineState V) :
    Except String (List V) × EngineState V :=
  h.cursorIndex indexName (fun c items => items ++ [c.2]) [] range st

/-! ### The public operation surface, as one dispatcher

Every public method of the class funnels through the store or storeIndex
field exactly once.  `OpCall` enumerates the public calls so that claims
quantifying over every public operation can be stated; `runOp` dispatches
each call to its definition above (setMany with no injected engine
failure; the cursor walks with the visitor that records the visited
records, which is the transcript of the visitor invocations). -/

/-- One public store-handle call with its arguments. -/
inductive OpCall (V : Type) where
  | get (k : Key)
  | getByIndex (indexName : String) (value : Key)
  | set (v : V) (k : Option Key)
  | getMany (ks : List Key)
  | setMany (vs : List V)
  | update (v : V)
  | del (k : Key)
  | clear
  | cursor (range : Option KeyRange)
  | cursorIndex (indexName : String) (range : Option KeyRange)
  | getAll (range : Option KeyRange)
  | getAllByIndex (indexName : String) (range : Option KeyRange)

/-- The result a public call resolves with. -/
inductive OpResult (V : Type) where
  | one (v : Option V)
  | many (vs : List (Option V))
  | values (vs : List V)
  | visited (rs : Records V)
  | ack
  deriving DecidableEq, Repr

/-- The transaction mode each public call passes to the store or storeIndex
field (the first argument at each call site in lines 73 to 213). -/
def OpCall.mode {V : Type} : OpCall V → Mode
  | .get _ => .readonly
  | .getByIndex _ _ => .readonly
  | .set _ _ => .readwrite
  | .getMany _ => .readonly
  | .setMany _ => .readwrite
  | .update _ => .readwrite
  | .del _ => .readwrite
  | .clear => .readwrite
  | .cursor _ => .readonly
  | .cursorIndex _ _ => .readonly
  | .getAll _ => .readonly
  | .getAllByIndex _ _ => .readonly

/-- The event on which each public call's returned promise settles, read
off the handle each method passes to promisify or the promise it returns:
requestSuccess for promisify of a single request (get line 74, getByIndex
line 86), allRequestsSuccess for Promise.all over promisified requests
(getMany line 109), txnComplete for promisify(store.transaction) (set line
99, setMany line 120, update line 132, del line 144, clear line 155), and
cursorExhausted for the promise the cursor walk resolves on a null cursor
(cursor line 168, cursorIndex line 183, and getAll and getAllByIndex which
await those walks). -/
inductive Settle where
  | requestSuccess
  | allRequestsSuccess
  | txnComplete
  | cursorExhausted
  deriving DecidableEq, Repr

/-- The settlement event of each public call; see `Settle`. -/
def OpCall.settle {V : Type} : OpCall V → Settle
  | .get _ => .requestSuccess
  | .getByIndex _ _ => .requestSuccess
  | .set _ _ => .txnComplete
  | .getMany _ => .allRequestsSuccess
  | .setMany _ => .txnComplete
  | .update _ => .txnComplete
  | .del _ => .txnComplete
  | .clear => .txnComplete
  | .cursor _ => .cursorExhausted
  | .cursorIndex _ _ => .cursorExhausted
  | .getAll _ => .cursorExhausted
  | .getAllByIndex _ _ => .cursorExhausted

/-- Whether the call reaches the store through the storeIndex field, whose
unregistered default throws the IDBStoreIndex-flavoured message (lines 23
to 29) rather than the IDBStore one (lines 16 to 21). -/
def OpCall.viaIndex {V : Type} : OpCall V → Bool
  | .getByIndex _ _ => true
  | .cursorIndex _ _ => true
  | .getAllByIndex _ _ => true
  | _ => false

/-- The not-initialized error message a call fails with before register:
the message of whichever private field it hits first. -/
def OpCall.notInitMsg {V : Type} (c : OpCall V) (name : String) : String :=
  if c.viaIndex then "IDBStoreIndex " ++ name ++ " is not initialized"
  else "IDBStore " ++ name ++ " is not initialized"

/-- Dispatch of one public call to its definition. -/
def runOp {V : Type} (c : OpCall V) (h : IDBStore) (st : EngineState V) :
    Except String (OpResult V) × EngineState V :=
  match c with
  | .get k => let r := h.get k st; (r.1.map .one, r.2)
  | .getByIndex ixn v => let r := h.getByIndex ixn v st; (r.1.map .one, r.2)
  | .set v k => let r := h.set v k st; (r.1.map (fun _ => .ack), r.2)
  | .getMany ks => let r := h.getMany ks st; (r.1.map .many, r.2)
  | .setMany vs => let r := h.setMany vs none st; (r.1.map (fun _ => .ack), r.2)
  | .update v => let r := h.update v st; (r.1.map (fun _ => .ack), r.2)
  | .del k => let r := h.del k st; (r.1.map (fun _ => .ack), r.2)
  | .clear => let r := h.clear st; (r.1.map (fun _ => .ack), r.2)
  | .cursor range =>
      let r := h.cursor (fun c acc => acc ++ [c]) [] range st
      (r.1.map .visited, r.2)
  | .cursorIndex ixn range =>
      let r := h.cursorIndex ixn (fun c acc => acc ++ [c]) [] range st
      (r.1.map .visited, r.2)
  | .getAll range => let r := h.getAll range st; (r.1.map .values, r.2)
  | .getAllByIndex ixn range =>
      let r := h.getAllByIndex ixn range st; (r.1.map .values, r.2)

/-! ### The earlier iteration's getAll (src/src/index.ts lines 185 to 188)

In that iteration the cursor visitor receives the cursor handle and getAll
pushes the handle itself, items.push(cursor), although the method is typed
Promise of an array of record values.  JavaScript values are dynamically
typed, so a single dynamic value type carries both record values and
cursor handles.  (That iteration's cursor promise also resolves as soon as
the handler is installed rather than when the walk finishes; the model
returns the items the walk accumulates, which is the most charitable
reading.) -/

/-- A dynamically typed JavaScript value: enough structure to distinguish a
record value from a cursor handle over a record. -/
inductive JSVal where
  | undef
  | num (n : Nat)
  | str (s : String)
  | cursorHandle (key : Key) (value : JSVal)
  deriving DecidableEq, Repr

/-- getAll of the earlier iteration src/src/index.ts (lines 185 to 188):
items.push(cursor) accumulates the cursor handles, not cursor.value. -/
def SrcIndexTs.getAll (h : IDBStore) (range : Option KeyRange)
    (st : EngineState JSVal) : Except String (List JSVal) × EngineState JSVal :=
  h.cursor (fun c items => items ++ [JSVal.cursorHandle c.1 c.2]) [] range st

/-! ### Schema migration (IDBStore.upgrade lines 36 to 56, IDBDatabase
lines 226 to 250)

During the upgrade event the engine exposes the database schema: the set
of object stores (each with the key path it was created with and its index
names) and the privileged upgrade transaction.  createObjectStore and
createIndex throw a ConstraintError when the name already exists, which is
why the source guards both with contains checks. -/

/-- The schema of one object store: the key-path option it was created
with and the names of its indexes. -/
structure StoreSchema where
  keyPath : Option String
  indexNames : List String
  deriving DecidableEq, Repr

/-- The database schema: object stores by name. -/
abbrev DBSchema := List (String × StoreSchema)

/-- Engine check db.objectStoreNames.contains(name). -/
def containsStore (name : String) (db : DBSchema) : Bool :=
  db.any (fun p => p.1 == name)

/-- Engine check store.indexNames.contains(indexName) for the named
store. -/
def containsIndex (name : String) (indexName : String) (db : DBSchema) : Bool :=
  db.any (fun p => p.1 == name && p.2.indexNames.contains indexName)

/-- Engine primitive db.createObjectStore(name, options?): creates the
store with the supplied key-path option, throwing a ConstraintError when a
store of that name already exists. -/
def createObjectStore (name : String) (keyPath : Option String)
    (db : DBSchema) : Except String DBSchema :=
  if containsStore name db then .error "ConstraintError: store exists"
  else .ok (db ++ [(name, ⟨keyPath, []⟩)])

/-- Engine primitive store.createIndex(name, keyPath, options?) on the
named store: adds the index, throwing a ConstraintError when an index of
that name already exists on the store. -/
def createIndex (name : String) (ix : IndexDecl) (db : DBSchema) :
    Except String DBSchema :=
  if containsIndex name ix.name db then .error "ConstraintError: index exists"
  else if containsStore name db then
    .ok (db.map (fun p =>
      if p.1 == name then (p.1, ⟨p.2.keyPath, p.2.indexNames ++ [ix.name]⟩)
      else p))
  else .error "NotFoundError: store missing"

/-- The index loop of upgrade (lines 48 to 55): for each declared index,
create it unless an index of that name already exists on the store. -/
def addIndexes (name : String) : List IndexDecl → DBSchema →
    Except String DBSchema
  | [], db => .ok db
  | ix :: rest, db => do
    let db' ←
      if !(containsIndex name ix.name db) then createIndex name ix db
      else .ok db
    addIndexes name rest db'

/-- upgrade(request) (lines 36 to 56): if no store of this name exists,
db.createObjectStore(name) is called, passing the name only and not the
declared options (line 43), so the engine creates the store with no key
path; otherwise the existing store is taken from the upgrade transaction
and no store is created.  Then each declared index missing from the store
is created. -/
def IDBStore.upgrade (h : IDBStore) (db : DBSchema) : Except String DBSchema := do
  let db' ←
    if !(containsStore h.name db) then createObjectStore h.name none db
    else .ok db
  addIndexes h.name h.options.indexes db'

/-- The onupgradeneeded handler of IDBDatabase.init (lines 239 to 244):
run upgrade for every declared store, in declaration order. -/
def upgradeAll : List IDBStore → DBSchema → Except String DBSchema
  | [], db => .ok db
  | h :: rest, db => do upgradeAll rest (← h.upgrade db)

/-- A schema already carries everything a store descriptor declares: the
store exists and each declared index exists on it.  This is the state the
migrator leaves behind and the state in which it is a no-op. -/
def Done (h : IDBStore) (db : DBSchema) : Prop :=
  containsStore h.name db = true ∧
  ∀ ix ∈ h.options.indexes, containsIndex h.name ix.name db = true

instance (h : IDBStore) (db : DBSchema) : Decidable (Done h db) := by
  unfold Done
  infer_instance

/-- The IDBDatabase class (lines 226 to 250): a name, a version, and the
declared store handles. -/
structure IDBDatabase where
  dbName : String
  version : Nat
  stores : List IDBStore

/-- init() (lines 234 to 249) when the open triggers an upgrade: the
migrator runs over the schema inside the upgrade transaction, then every
declared store handle is registered against the open connection.  An error
during migration aborts the whole open and nothing is registered. -/
def IDBDatabase.init (d : IDBDatabase) (schema : DBSchema) :
    Except String (DBSchema × List IDBStore) := do
  let schema' ← upgradeAll d.stores schema
  .ok (schema', d.stores.map IDBStore.register)

/-! ### Concrete fixtures used to exercise the definitions -/

/-- A store handle named users, as constructed with a key path and one
index named byEmail, before registration. -/
def usersStore : IDBStore :=
  { name := "users"
    options := { keyPath := some "id", indexes := [⟨"byEmail", "email", false⟩] } }

/-- An engine state over Nat values whose in-line key path extracts the
value itself and whose every index key is the value modulo 3. -/
def natEngine (rs : Records Nat) : EngineState Nat :=
  { records := rs, keyOf := fun v => v, indexKeyOf := fun _ v => v % 3 }

/-- An engine state over dynamically typed values. -/
def jsEngine (rs : Records JSVal) : EngineState JSVal :=
  { records := rs, keyOf := fun _ => 0, indexKeyOf := fun _ _ => 0 }

/-! ### Lemmas about the engine primitives -/

theorem idbGet_eq_none_of_not_mem {V : Type} {k : Key} {rs : Records V}
    (hk : k ∉ rs.map Prod.fst) : idbGet k rs = none := by
  induction rs with
  | nil => rfl
  | cons p rest ih =>
    simp only [List.map_cons, List.mem_cons, not_or] at hk
    rw [show (p = (p.1, p.2)) from rfl, idbGet, if_neg hk.1]
    exact ih hk.2

theorem idbGet_idbPut_self {V : Type} (k : Key) (v : V) (rs : Records V) :
    idbGet k (idbPut k v rs) = some v := by
  induction rs with
  | nil => simp [idbPut, idbGet]
  | cons p rest ih =>
    rw [show (p = (p.1, p.2)) from rfl]
    by_cases h1 : k < p.1
    · simp [idbPut, h1, idbGet]
    · by_cases h2 : k = p.1
      · simp [idbPut, h1, h2, idbGet]
      · simp only [idbPut, if_neg h1, if_neg h2, idbGet]
        exact ih

theorem idbGet_idbPut_ne {V : Type} {k k' : Key} (hne : k' ≠ k) (v : V)
    (rs : Records V) : idbGet k' (idbPut k v rs) = idbGet k' rs := by
  induction rs with
  | nil => simp [idbPut, idbGet, hne]
  | cons p rest ih =>
    rw [show (p = (p.1, p.2)) from rfl]
    by_cases h1 : k < p.1
    · simp only [idbPut, if_pos h1, idbGet, if_neg hne]
    · by_cases h2 : k = p.1
      · simp only [idbPut, if_neg h1, if_pos h2, idbGet, if_neg hne]
        rw [if_neg (h2 ▸ hne)]
      · simp only [idbPut, if_neg h1, if_neg h2, idbGet]
        by_cases h3 : k' = p.1
        · simp [h3]
        · rw [if_neg h3, if_neg h3]
          exact ih

/-! ### Lemmas about the put batch of setMany -/

theorem putBatch_none {V : Type} (keyOf : V → Key) (vs : List V) :
    ∀ (i : Nat) (rs : Records V),
      putBatch keyOf none vs i rs = .ok (putFold keyOf vs rs) := by
  induction vs with
  | nil => intro i rs; rfl
  | cons v rest ih =>
    intro i rs
    simp only [putBatch, putFold, List.foldl_cons]
    exact ih (i + 1) (idbPut (keyOf v) v rs)

theorem putBatch_fail {V : Type} (keyOf : V → Key) (j : Nat) :
    ∀ (vs : List V) (i : Nat) (rs : Records V), i ≤ j → j < i + vs.length →
      putBatch keyOf (some j) vs i rs = .error "RequestFailed: put" := by
  intro vs
  induction vs with
  | nil => intro i rs hle hlt; simp at hlt; omega
  | cons v rest ih =>
    intro i rs hle hlt
    by_cases hji : j = i
    · simp [putBatch, hji]
    · have h1 : (some j = some i) = False := by simp [hji]
      simp only [putBatch, h1, if_false]
      exact ih (i + 1) (idbPut (keyOf v) v rs) (by omega)
        (by simp at hlt; omega)

theorem idbGet_putFold_not_mem {V : Type} (keyOf : V → Key) {k : Key} :
    ∀ (vs : List V) (rs : Records V), k ∉ vs.map keyOf →
      idbGet k (putFold keyOf vs rs) = idbGet k rs := by
  intro vs
  induction vs with
  | nil => intro rs _; rfl
  | cons v rest ih =>
    intro rs hk
    simp only [List.map_cons, List.mem_cons, not_or] at hk
    simp only [putFold, List.foldl_cons]
    rw [show (List.foldl (fun acc v => idbPut (keyOf v) v acc)
          (idbPut (keyOf v) v rs) rest
        = putFold keyOf rest (idbPut (keyOf v) v rs)) from rfl]
    rw [ih _ hk.2, idbGet_idbPut_ne hk.1]

theorem idbGet_putFold_mem {V : Type} (keyOf : V → Key) {a : V} :
    ∀ (vs : List V) (rs : Records V), (vs.map keyOf).Nodup → a ∈ vs →
      idbGet (keyOf a) (putFold keyOf vs rs) = some a := by
  intro vs
  induction vs with
  | nil => intro rs _ ha; cases ha
  | cons v rest ih =>
    intro rs hnd ha
    simp only [List.map_cons, List.nodup_cons] at hnd
    rcases List.mem_cons.mp ha with ha | ha
    · subst ha
      rw [show (putFold keyOf (a :: rest) rs
            = putFold keyOf rest (idbPut (keyOf a) a rs)) from rfl]
      rw [idbGet_putFold_not_mem keyOf rest _ hnd.1]
      exact idbGet_idbPut_self (keyOf a) a rs
    · exact ih (idbPut (keyOf v) v rs) hnd.2 ha

theorem getMany_putFold {V : Type} (keyOf : V → Key) :
    ∀ (vs : List V) (rs : Records V), (vs.map keyOf).Nodup →
      (vs.map keyOf).map (fun k => idbGet k (putFold keyOf vs rs))
        = vs.map some := by
  intro vs
  induction vs with
  | nil => intro rs _; rfl
  | cons v rest ih =>
    intro rs hnd
    simp only [List.map_cons, List.nodup_cons] at hnd ⊢
    refine List.cons_eq_cons.mpr ⟨?_, ?_⟩
    · rw [show (putFold keyOf (v :: rest) rs
            = putFold keyOf rest (idbPut (keyOf v) v rs)) from rfl]
      rw [idbGet_putFold_not_mem keyOf rest _ hnd.1]
      exact idbGet_idbPut_self (keyOf v) v rs
    · exact ih (idbPut (keyOf v) v rs) hnd.2

/-! ### Lemmas about cursor order -/

theorem indexLe_iff {V : Type} (ix : V → Key) (a b : Key × V) :
    indexLe ix a b = true ↔
      ix a.2 < ix b.2 ∨ (ix a.2 = ix b.2 ∧ a.1 ≤ b.1) := by
  simp [indexLe]

theorem indexLe_trans {V : Type} (ix : V → Key) (a b c : Key × V)
    (hab : indexLe ix a b = true) (hbc : indexLe ix b c = true) :
    indexLe ix a c = true := by
  rw [indexLe_iff] at hab hbc ⊢
  rcases hab with h | h
  · rcases hbc with h' | h'
    · exact Or.inl (lt_trans h h')
    · exact Or.inl (h'.1 ▸ h)
  · rcases hbc with h' | h'
    · exact Or.inl (h.1 ▸ h')
    · exact Or.inr ⟨h.1.trans h'.1, le_trans h.2 h'.2⟩

theorem indexLe_total {V : Type} (ix : V → Key) (a b : Key × V) :
    (indexLe ix a b || indexLe ix b a) = true := by
  rcases Bool.eq_false_or_eq_true (indexLe ix a b) with h | h
  · rw [h, Bool.true_or]
  · have hnot : ¬(ix a.2 < ix b.2 ∨ (ix a.2 = ix b.2 ∧ a.1 ≤ b.1)) := by
      rw [← indexLe_iff ix a b, h]
      simp
    rw [h, Bool.false_or, indexLe_iff]
    have h1 : ¬ ix a.2 < ix b.2 := fun hl => hnot (Or.inl hl)
    have h2 : ¬ (ix a.2 = ix b.2 ∧ a.1 ≤ b.1) := fun hc => hnot (Or.inr hc)
    rcases Nat.lt_trichotomy (ix a.2) (ix b.2) with hl | he | hg
    · exact absurd hl h1
    · refine Or.inr ⟨he.symm, ?_⟩
      rcases Nat.le_total a.1 b.1 with hle | hle
      · exact absurd ⟨he, hle⟩ h2
      · exact hle
    · exact Or.inl hg

theorem engineIndexSeq_perm {V : Type} (ix : V → Key) (rs : Records V) :
    (engineIndexSeq ix rs).Perm rs :=
  List.mergeSort_perm rs (indexLe ix)

theorem engineIndexSeq_pairwise {V : Type} (ix : V → Key) (rs : Records V) :
    List.Pairwise (fun a b => indexLe ix a b = true) (engineIndexSeq ix rs) :=
  List.sorted_mergeSort (indexLe_trans ix) (indexLe_total ix) rs

theorem nodup_of_recordsSorted {V : Type} {rs : Records V}
    (hs : RecordsSorted rs) : rs.Nodup :=
  hs.imp (fun hab heq => absurd (heq ▸ hab) (lt_irrefl _))

theorem cursorLoop_push {V : Type} :
    ∀ (l : Records V) (acc : Records V),
      cursorLoop (fun c acc => acc ++ [c]) l acc = acc ++ l := by
  intro l
  induction l with
  | nil => intro acc; simp [cursorLoop]
  | cons c rest ih => intro acc; simp [cursorLoop, ih]

theorem engineCursor_mem {V : Type} (range : Option KeyRange)
    (rs : Records V) (r : Key × V) :
    r ∈ engineCursor range rs ↔ r ∈ rs ∧ rangeMem range r.1 = true := by
  simp [engineCursor, List.mem_filter]

theorem engineCursor_nodup {V : Type} (range : Option KeyRange)
    {rs : Records V} (hs : RecordsSorted rs) :
    (engineCursor range rs).Nodup :=
  (nodup_of_recordsSorted hs).filter _

theorem engineCursor_keys_sorted {V : Type} (range : Option KeyRange)
    {rs : Records V} (hs : RecordsSorted rs) :
    List.Pairwise (· < ·) ((engineCursor range rs).map Prod.fst) :=
  List.pairwise_map.mpr (hs.filter _)

theorem engineIndexCursor_mem {V : Type} (ix : V → Key)
    (range : Option KeyRange) (rs : Records V) (r : Key × V) :
    r ∈ engineIndexCursor ix range rs ↔
      r ∈ rs ∧ rangeMem range (ix r.2) = true := by
  simp only [engineIndexCursor, List.mem_filter,
    (engineIndexSeq_perm ix rs).mem_iff]

theorem engineIndexCursor_nodup {V : Type} (ix : V → Key)
    (range : Option KeyRange) {rs : Records V} (hs : RecordsSorted rs) :
    (engineIndexCursor ix range rs).Nodup :=
  (((engineIndexSeq_perm ix rs).nodup_iff).mpr
    (nodup_of_recordsSorted hs)).filter _

theorem engineIndexCursor_keys_sorted {V : Type} (ix : V → Key)
    (range : Option KeyRange) (rs : Records V) :
    List.Pairwise (· ≤ ·)
      ((engineIndexCursor ix range rs).map (fun r => ix r.2)) := by
  refine List.pairwise_map.mpr (((engineIndexSeq_pairwise ix rs).filter _).imp ?_)
  intro a b hab
  rw [indexLe_iff] at hab
  rcases hab with h | h
  · exact le_of_lt h
  · exact le_of_eq h.1

/-! ### Lemmas about the Request Bridge -/

theorem promisifyStep_settled {V E : Type} (h : ReqHandle V E)
    {s : PState V E} (hs : s ≠ .pending) (sig : Signal) :
    promisifyStep h s sig = s := by
  cases sig <;> cases s <;> simp_all [promisifyStep, resolveP, rejectP]

theorem foldl_promisifyStep_settled {V E : Type} (h : ReqHandle V E)
    {s : PState V E} (hs : s ≠ .pending) (sigs : List Signal) :
    sigs.foldl (promisifyStep h) s = s := by
  induction sigs with
  | nil => rfl
  | cons sig rest ih =>
    rw [List.foldl_cons, promisifyStep_settled h hs sig]
    exact ih

theorem promisifyStep_pending_ne {V E : Type} (h : ReqHandle V E)
    (sig : Signal) : promisifyStep h .pending sig ≠ .pending := by
  cases sig <;> simp [promisifyStep, resolveP, rejectP]

/-! ### Lemmas about the schema migrator -/

theorem containsStore_append_one (m n : String) (s : StoreSchema)
    (db : DBSchema) :
    containsStore m (db ++ [(n, s)]) = (containsStore m db || (n == m)) := by
  simp [containsStore, List.any_append]

theorem containsIndex_append_new (m i n : String) (kp : Option String)
    (db : DBSchema) :
    containsIndex m i (db ++ [(n, ⟨kp, []⟩)]) = containsIndex m i db := by
  simp [containsIndex, List.any_append, List.elem_iff]

theorem containsStore_createIndex_map (m n : String) (ix : IndexDecl)
    (db : DBSchema) :
    containsStore m (db.map (fun p =>
        if p.1 == n then (p.1, ⟨p.2.keyPath, p.2.indexNames ++ [ix.name]⟩)
        else p))
      = containsStore m db := by
  simp only [containsStore, List.any_map]
  congr 1
  funext p
  by_cases h : p.1 == n <;> simp [h, Function.comp]

theorem containsIndex_createIndex_mono {m i n : String} {ix : IndexDecl}
    {db : DBSchema} (hm : containsIndex m i db = true) :
    containsIndex m i (db.map (fun p =>
        if p.1 == n then (p.1, ⟨p.2.keyPath, p.2.indexNames ++ [ix.name]⟩)
        else p))
      = true := by
  simp only [containsIndex, List.any_eq_true] at hm ⊢
  obtain ⟨p, hp, hcond⟩ := hm
  refine ⟨(fun p =>
      if p.1 == n then (p.1, ⟨p.2.keyPath, p.2.indexNames ++ [ix.name]⟩)
      else p) p, List.mem_map_of_mem _ hp, ?_⟩
  by_cases h : p.1 == n
  · simp only [Bool.and_eq_true, List.elem_iff, decide_eq_true_eq] at hcond
    simp [h, List.elem_iff, hcond.1, hcond.2]
  · simpa [h] using hcond

theorem containsIndex_createIndex_self {n : String} (ix : IndexDecl)
    {db : DBSchema} (hs : containsStore n db = true) :
    containsIndex n ix.name (db.map (fun p =>
        if p.1 == n then (p.1, ⟨p.2.keyPath, p.2.indexNames ++ [ix.name]⟩)
        else p))
      = true := by
  simp only [containsStore, List.any_eq_true] at hs
  obtain ⟨p, hp, hcond⟩ := hs
  simp only [containsIndex, List.any_eq_true]
  refine ⟨(fun p =>
      if p.1 == n then (p.1, ⟨p.2.keyPath, p.2.indexNames ++ [ix.name]⟩)
      else p) p, List.mem_map_of_mem _ hp, ?_⟩
  simp [hcond, List.elem_iff]

theorem addIndexes_spec (n : String) :
    ∀ (ixs : List IndexDecl) (db : DBSchema),
      containsStore n db = true →
      ∃ db', addIndexes n ixs db = .ok db' ∧
        (∀ m, containsStore m db' = containsStore m db) ∧
        (∀ m i, containsIndex m i db = true → containsIndex m i db' = true) ∧
        (∀ ix ∈ ixs, containsIndex n ix.name db' = true) := by
  intro ixs
  induction ixs with
  | nil =>
    intro db hdb
    exact ⟨db, rfl, fun _ => rfl, fun _ _ h => h, by simp⟩
  | cons ix rest ih =>
    intro db hdb
    by_cases hc : containsIndex n ix.name db = true
    · obtain ⟨db', h1, h2, h3, h4⟩ := ih db hdb
      refine ⟨db', ?_, h2, h3, ?_⟩
      · simp only [addIndexes, hc, Bool.not_true]
        simpa using h1
      · intro jx hjx
        rcases List.mem_cons.mp hjx with hjx | hjx
        · exact hjx ▸ h3 n ix.name hc
        · exact h4 jx hjx
    · have hc' : containsIndex n ix.name db = false := by
        simpa using hc
      have hcreate : createIndex n ix db
          = .ok (db.map (fun p =>
              if p.1 == n then
                (p.1, ⟨p.2.keyPath, p.2.indexNames ++ [ix.name]⟩)
              else p)) := by
        simp [createIndex, hc', hdb]
      set db₁ := db.map (fun p =>
          if p.1 == n then (p.1, ⟨p.2.keyPath, p.2.indexNames ++ [ix.name]⟩)
          else p) with hdb₁
      have hdb₁s : containsStore n db₁ = true := by
        rw [hdb₁, containsStore_createIndex_map]
        exact hdb
      obtain ⟨db', h1, h2, h3, h4⟩ := ih db₁ hdb₁s
      refine ⟨db', ?_, ?_, ?_, ?_⟩
      · simp only [addIndexes, hc', Bool.not_false, if_true, hcreate]
        simpa using h1
      · intro m
        rw [h2 m, hdb₁, containsStore_createIndex_map]
      · intro m i hmi
        exact h3 m i (hdb₁ ▸ containsIndex_createIndex_mono hmi)
      · intro jx hjx
        rcases List.mem_cons.mp hjx with hjx | hjx
        · exact hjx ▸ h3 n ix.name (hdb₁ ▸ containsIndex_createIndex_self ix hdb)
        · exact h4 jx hjx

theorem addIndexes_of_done (n : String) :
    ∀ (ixs : List IndexDecl) (db : DBSchema),
      (∀ ix ∈ ixs, containsIndex n ix.name db = true) →
      addIndexes n ixs db = .ok db := by
  intro ixs
  induction ixs with
  | nil => intro db _; rfl
  | cons ix rest ih =>
    intro db hall
    have hc : containsIndex n ix.name db = true := hall ix (by simp)
    simp only [addIndexes, hc, Bool.not_true]
    simpa using ih db (fun jx hjx => hall jx (List.mem_cons_of_mem _ hjx))

theorem upgrade_spec (h : IDBStore) (db : DBSchema) :
    ∃ db', h.upgrade db = .ok db' ∧
      (∀ m, containsStore m db = true → containsStore m db' = true) ∧
      (∀ m i, containsIndex m i db = true → containsIndex m i db' = true) ∧
      Done h db' := by
  by_cases hc : containsStore h.name db = true
  · obtain ⟨db', h1, h2, h3, h4⟩ := addIndexes_spec h.name h.options.indexes db hc
    refine ⟨db', ?_, ?_, h3, ⟨?_, h4⟩⟩
    · simp only [IDBStore.upgrade, hc, Bool.not_true]
      simpa using h1
    · intro m hm
      rw [h2 m]; exact hm
    · rw [h2 h.name]; exact hc
  · have hc' : containsStore h.name db = false := by simpa using hc
    have hcreate : createObjectStore h.name none db
        = .ok (db ++ [(h.name, ⟨none, []⟩)]) := by
      simp [createObjectStore, hc']
    set db₀ := db ++ [(h.name, ⟨none, []⟩)] with hdb₀
    have hdb₀s : containsStore h.name db₀ = true := by
      rw [hdb₀, containsStore_append_one]
      simp
    obtain ⟨db', h1, h2, h3, h4⟩ := addIndexes_spec h.name h.options.indexes db₀ hdb₀s
    refine ⟨db', ?_, ?_, ?_, ⟨?_, h4⟩⟩
    · simp only [IDBStore.upgrade, hc', Bool.not_false, if_true, hcreate]
      simpa using h1
    · intro m hm
      rw [h2 m, hdb₀, containsStore_append_one, hm, Bool.true_or]
    · intro m i hmi
      refine h3 m i ?_
      rw [hdb₀, containsIndex_append_new]
      exact hmi
    · rw [h2 h.name]; exact hdb₀s

theorem upgrade_of_done {h : IDBStore} {db : DBSchema} (hd : Done h db) :
    h.upgrade db = .ok db := by
  obtain ⟨h1, h2⟩ := hd
  simp only [IDBStore.upgrade, h1, Bool.not_true]
  simpa using addIndexes_of_done h.name h.options.indexes db h2

theorem upgradeAll_spec :
    ∀ (hs : List IDBStore) (db : DBSchema),
      ∃ db₁, upgradeAll hs db = .ok db₁ ∧
        (∀ m, containsStore m db = true → containsStore m db₁ = true) ∧
        (∀ m i, containsIndex m i db = true → containsIndex m i db₁ = true) ∧
        (∀ h ∈ hs, Done h db₁) := by
  intro hs
  induction hs with
  | nil =>
    intro db
    exact ⟨db, rfl, fun _ h => h, fun _ _ h => h, by simp⟩
  | cons h rest ih =>
    intro db
    obtain ⟨db', hu1, hu2, hu3, hu4⟩ := upgrade_spec h db
    obtain ⟨db₁, hr1, hr2, hr3, hr4⟩ := ih db'
    refine ⟨db₁, ?_, ?_, ?_, ?_⟩
    · simp only [upgradeAll, hu1]
      simpa using hr1
    · exact fun m hm => hr2 m (hu2 m hm)
    · exact fun m i hmi => hr3 m i (hu3 m i hmi)
    · intro g hg
      rcases List.mem_cons.mp hg with hg | hg

      · subst hg
        exact ⟨hr2 _ hu4.1, fun ix hix => hr3 _ _ (hu4.2 ix hix)⟩
      · exact hr4 g hg

theorem upgradeAll_of_done :
    ∀ (hs : List IDBStore) (db : DBSchema),
      (∀ h ∈ hs, Done h db) → upgradeAll hs db = .ok db := by
  intro hs
  induction hs with
  | nil => intro db _; rfl
  | cons h rest ih =>
    intro db hall
    simp only [upgradeAll, upgrade_of_done (hall h (by simp))]
    simpa using ih db (fun g hg => hall g (List.mem_cons_of_mem _ hg))

/-! ### The claims -/

/-- C1, counterexample: the claim says every public operation's returned
promise resolves only when its transaction finishes, and in particular
that get settles on transaction completion; but get returns
promisify(store.get(key)) (line 74), which settles on the request's own
success signal, not on the transaction's completion. -/
theorem C1_counterexample :
    (OpCall.get (V := Nat) 0).settle ≠ Settle.txnComplete := by
  decide

/-- C1, amended: every public store-handle operation opens exactly one
transaction per call, in its declared mode; the operations that resolve on
transaction completion are exactly the read-write ones (set, setMany,
update, del, clear), while the read operations settle on their own
request's success, on all their requests succeeding, or on cursor
exhaustion instead. -/
theorem C1_one_txn_and_settlement {V : Type} (c : OpCall V) (h : IDBStore)
    (st : EngineState V) :
    (runOp c h.register st).2.txnLog = c.mode :: st.txnLog ∧
    (c.settle = Settle.txnComplete ↔ c.mode = Mode.readwrite) := by
  constructor
  · cases c <;>
      simp [runOp, IDBStore.get, IDBStore.getByIndex, IDBStore.set,
        IDBStore.getMany, IDBStore.setMany, IDBStore.update, IDBStore.del,
        IDBStore.clear, IDBStore.cursor, IDBStore.cursorIndex,
        IDBStore.getAll, IDBStore.getAllByIndex, IDBStore.store,
        IDBStore.storeIndex, IDBStore.register, putBatch_none, OpCall.mode,
        Except.map]
  · cases c <;> simp [OpCall.settle, OpCall.mode]

/-- C1, witness: a concrete set call logs exactly one read-write
transaction and settles on transaction completion. -/
theorem C1_one_txn_and_settlement_witness :
    (runOp (OpCall.set 7 (some 3)) (IDBStore.register { name := "s" })
        (natEngine [])).2.txnLog = [Mode.readwrite] ∧
    (OpCall.set (V := Nat) 7 (some 3)).settle = Settle.txnComplete :=
  ⟨(C1_one_txn_and_settlement (OpCall.set 7 (some 3)) { name := "s" }
      (natEngine [])).1,
   ((C1_one_txn_and_settlement (OpCall.set 7 (some 3)) { name := "s" }
      (natEngine [])).2).mpr rfl⟩

/-- C2: setMany applies its whole batch in one transaction atomically: an
engine failure on any put request inside the batch aborts the transaction
and leaves the records exactly unchanged, surfacing as a rejection; on
success, getMany over the written keys returns the written values in the
order of the requested keys (given that the batch's derived keys are
pairwise distinct). -/
theorem C2_setMany_atomic {V : Type} (h : IDBStore) (st : EngineState V)
    (vs : List V) (i : Nat) :
    (i < vs.length →
      (h.register.setMany vs (some i) st).2.records = st.records ∧
      (h.register.setMany vs (some i) st).1 = .error "RequestFailed: put") ∧
    ((vs.map st.keyOf).Nodup →
      (h.register.getMany (vs.map st.keyOf)
          (h.register.setMany vs none st).2).1 = .ok (vs.map some)) := by
  constructor
  · intro hi
    have hfail := putBatch_fail st.keyOf i vs 0 st.records (Nat.zero_le i)
      (by simpa using hi)
    constructor <;>
      simp [IDBStore.setMany, IDBStore.store, IDBStore.register, hfail,
        Except.map]
  · intro hnd
    have hok := putBatch_none st.keyOf vs 0 st.records
    simp only [IDBStore.setMany, IDBStore.getMany, IDBStore.store,
      IDBStore.register, hok, Except.map, if_true]
    exact congrArg Except.ok (getMany_putFold st.keyOf vs st.records hnd)

/-- C2, witness: a concrete two-element batch over an empty store; failing
the first put leaves the store empty, and the successful batch makes
getMany return the written values in request order. -/
theorem C2_setMany_atomic_witness :
    ((IDBStore.register { name := "s" }).setMany [2, 5] (some 0)
        (natEngine [])).2.records = [] ∧
    ((IDBStore.register { name := "s" }).getMany [2, 5]
        ((IDBStore.register { name := "s" }).setMany [2, 5] none
          (natEngine [])).2).1 = .ok [some 2, some 5] :=
  ⟨((C2_setMany_atomic { name := "s" } (natEngine []) [2, 5] 0).1
      (by decide)).1,
   (C2_setMany_atomic { name := "s" } (natEngine []) [2, 5] 0).2 (by decide)⟩

/-- C3: get of a key never written resolves to the not-found sentinel
(undefined, modelled as none), and after set(v, k) completes, get(k)
resolves to v. -/
theorem C3_get_set_roundtrip {V : Type} (h : IDBStore) (st : EngineState V)
    (k : Key) (v : V) :
    (k ∉ st.records.map Prod.fst → (h.register.get k st).1 = .ok none) ∧
    (h.register.get k ((h.register.set v (some k) st).2)).1 = .ok (some v) := by
  constructor
  · intro hk
    simp [IDBStore.get, IDBStore.store, IDBStore.register,
      idbGet_eq_none_of_not_mem hk]
  · simp [IDBStore.get, IDBStore.set, IDBStore.store, IDBStore.register,
      idbGet_idbPut_self]

/-- C3, witness: on the empty store, get 3 yields none; after set 7 at key
3, get 3 yields 7. -/
theorem C3_get_set_roundtrip_witness :
    ((IDBStore.register { name := "s" }).get 3 (natEngine [])).1
        = .ok (none : Option Nat) ∧
    ((IDBStore.register { name := "s" }).get 3
        (((IDBStore.register { name := "s" }).set 7 (some 3)
          (natEngine [])).2)).1 = .ok (some 7) :=
  ⟨(C3_get_set_roundtrip { name := "s" } (natEngine []) 3 7).1 (by decide),
   (C3_get_set_roundtrip { name := "s" } (natEngine []) 3 7).2⟩

/-- C4: every public operation invoked before registration fails
immediately, with no transaction opened and the state untouched, with a
not-initialized error whose message names the store (the IDBStoreIndex
variant for the operations that go through the index accessor); and once
register has run against the live connection, every operation returns a
successful result, so none fails for that reason. -/
theorem C4_not_initialized {V : Type} (c : OpCall V) (name : String)
    (opts : IDBStoreOptions) (st : EngineState V) :
    (runOp c { name := name, options := opts, registered := false } st).1
        = .error (c.notInitMsg name) ∧
    (runOp c { name := name, options := opts, registered := false } st).2
        = st ∧
    c.notInitMsg name
        = (if c.viaIndex then "IDBStoreIndex " else "IDBStore ") ++ name
            ++ " is not initialized" ∧
    ∀ e, (runOp c ({ name := name, options := opts, registered := false }
        : IDBStore).register st).1 ≠ .error e := by
  refine ⟨?_, ?_, ?_, ?_⟩ <;>
    cases c <;>
      simp [runOp, IDBStore.get, IDBStore.getByIndex, IDBStore.set,
        IDBStore.getMany, IDBStore.setMany, IDBStore.update, IDBStore.del,
        IDBStore.clear, IDBStore.cursor, IDBStore.cursorIndex,
        IDBStore.getAll, IDBStore.getAllByIndex, IDBStore.store,
        IDBStore.storeIndex, IDBStore.register, putBatch_none,
        OpCall.notInitMsg, OpCall.viaIndex, Except.map]

/-- C4, witness: a concrete get call on an unregistered users handle fails
with the not-initialized error and leaves the engine untouched. -/
theorem C4_not_initialized_witness :
    (runOp (OpCall.get (V := Nat) 3)
        { name := "s", options := {}, registered := false } (natEngine [])).1
      = .error ((OpCall.get (V := Nat) 3).notInitMsg "s") ∧
    (runOp (OpCall.get (V := Nat) 3)
        { name := "s", options := {}, registered := false } (natEngine [])).2
      = natEngine [] :=
  ⟨(C4_not_initialized (OpCall.get 3) "s" {} (natEngine [])).1,
   (C4_not_initialized (OpCall.get 3) "s" {} (natEngine [])).2.1⟩

/-- C5: the claim says a missing store is created with its declared
key-path option during upgrade.  The code calls db.createObjectStore(name)
without passing the collected options (line 43), so the engine creates the
store with no key path: on a fresh database, the users descriptor declaring
key path id produces a store whose key path is none.  The reuse half of the
claim holds: when the store already exists, upgrade leaves it as it is and
creates no new store. -/
theorem C5_upgrade_drops_keyPath :
    usersStore.options.keyPath = some "id" ∧
    usersStore.upgrade [] = .ok [("users", ⟨none, ["byEmail"]⟩)] ∧
    (none : Option String) ≠ some "id" ∧
    usersStore.upgrade [("users", ⟨some "id", ["byEmail"]⟩)]
        = .ok [("users", ⟨some "id", ["byEmail"]⟩)] := by
  refine ⟨rfl, by rfl, by decide, by rfl⟩

/-- C6: migration is idempotent: when running the schema migrator over a
set of store descriptors succeeds and produces a schema, running it again
over that schema raises no error and returns the schema unchanged. -/
theorem C6_migration_idempotent (hs : List IDBStore) (db db₁ : DBSchema)
    (hrun : upgradeAll hs db = .ok db₁) :
    upgradeAll hs db₁ = .ok db₁ := by
  obtain ⟨db', h1, _, _, h4⟩ := upgradeAll_spec hs db
  rw [hrun] at h1
  injection h1 with h1
  subst h1
  exact upgradeAll_of_done hs db₁ h4

/-- C6, witness: migrating the users and posts descriptors over the empty
schema and then migrating the result again returns it unchanged. -/
theorem C6_migration_idempotent_witness :
    upgradeAll [usersStore, { name := "posts" }]
        [("users", ⟨none, ["byEmail"]⟩), ("posts", ⟨none, []⟩)]
      = .ok [("users", ⟨none, ["byEmail"]⟩), ("posts", ⟨none, []⟩)] :=
  C6_migration_idempotent [usersStore, { name := "posts" }] []
    [("users", ⟨none, ["byEmail"]⟩), ("posts", ⟨none, []⟩)] (by rfl)

/-- C7: over a store whose records are in ascending primary-key order, the
cursor walk enumerates exactly the in-range records, each exactly once, in
ascending primary-key order, invoking the visitor once per record and
resolving when no record remains; the index cursor walk enumerates exactly
the records whose index key is in range, each exactly once, in ascending
index-key order. -/
theorem C7_cursor_visits_once_in_order {V σ : Type} (h : IDBStore)
    (st : EngineState V) (range : Option KeyRange)
    (visit : Key × V → σ → σ) (s0 : σ) (ixn : String)
    (hsorted : RecordsSorted st.records) :
    (h.register.cursor visit s0 range st).1
        = .ok (cursorLoop visit (engineCursor range st.records) s0) ∧
    cursorLoop (fun c acc => acc ++ [c]) (engineCursor range st.records) []
        = engineCursor range st.records ∧
    (∀ r, r ∈ engineCursor range st.records ↔
        r ∈ st.records ∧ rangeMem range r.1 = true) ∧
    (engineCursor range st.records).Nodup ∧
    List.Pairwise (· < ·) ((engineCursor range st.records).map Prod.fst) ∧
    (h.register.cursorIndex ixn visit s0 range st).1
        = .ok (cursorLoop visit
            (engineIndexCursor (st.indexKeyOf ixn) range st.records) s0) ∧
    cursorLoop (fun c acc => acc ++ [c])
        (engineIndexCursor (st.indexKeyOf ixn) range st.records) []
        = engineIndexCursor (st.indexKeyOf ixn) range st.records ∧
    (∀ r, r ∈ engineIndexCursor (st.indexKeyOf ixn) range st.records ↔
        r ∈ st.records ∧ rangeMem range (st.indexKeyOf ixn r.2) = true) ∧
    (engineIndexCursor (st.indexKeyOf ixn) range st.records).Nodup ∧
    List.Pairwise (· ≤ ·)
        ((engineIndexCursor (st.indexKeyOf ixn) range st.records).map
          (fun r => st.indexKeyOf ixn r.2)) := by
  refine ⟨?_, ?_, engineCursor_mem range st.records,
    engineCursor_nodup range hsorted,
    engineCursor_keys_sorted range hsorted, ?_, ?_,
    engineIndexCursor_mem _ range st.records,
    engineIndexCursor_nodup _ range hsorted,
    engineIndexCursor_keys_sorted _ range st.records⟩
  · simp [IDBStore.cursor, IDBStore.store, IDBStore.register]
  · simpa using cursorLoop_push (engineCursor range st.records) []
  · simp [IDBStore.cursorIndex, IDBStore.storeIndex, IDBStore.store,
      IDBStore.register]
  · simpa using cursorLoop_push
      (engineIndexCursor (st.indexKeyOf ixn) range st.records) []

/-- C7, witness: on a concrete sorted three-record store (index key is the
value modulo 3) the primary walk visits the in-range records in ascending
key order. -/
theorem C7_cursor_visits_once_in_order_witness :
    ((IDBStore.register { name := "s" }).cursor
        (fun c acc => acc ++ [c]) ([] : Records Nat)
        (some { lower := some 2 }) (natEngine [(1, 4), (2, 9), (3, 5)])).1
      = .ok [(2, 9), (3, 5)] := by
  have h := (C7_cursor_visits_once_in_order { name := "s" }
    (natEngine [(1, 4), (2, 9), (3, 5)]) (some { lower := some 2 })
    (fun c acc => acc ++ [c]) [] "byMod" (by decide)).1
  rw [h]
  rfl

/-- C8: getAll is claimed to accumulate the record values visited by the
cursor walk.  The final iteration (src/unnamed/part_000, lines 196 to 200)
does push cursor.value and after clear resolves to the empty sequence, but
the earlier iteration src/src/index.ts (lines 185 to 188) pushes the
cursor handle itself, items.push(cursor), although its declared return
type is a promise of record values: on a store holding the single record
(1, 10), that getAll resolves with a cursor handle, not with the value. -/
theorem C8_old_getAll_returns_handles :
    (SrcIndexTs.getAll (IDBStore.register { name := "s" }) none
        (jsEngine [(1, JSVal.num 10)])).1
      = .ok [JSVal.cursorHandle 1 (JSVal.num 10)] ∧
    (IDBStore.getAll (IDBStore.register { name := "s" }) none
        (jsEngine [(1, JSVal.num 10)])).1
      = .ok [JSVal.num 10] ∧
    JSVal.cursorHandle 1 (JSVal.num 10) ≠ JSVal.num 10 ∧
    (IDBStore.getAll (IDBStore.register { name := "s" }) none
        ((IDBStore.clear (IDBStore.register { name := "s" })
          (jsEngine [(1, JSVal.num 10)])).2)).1
      = .ok [] := by
  refine ⟨by rfl, by rfl, by decide, by rfl⟩

/-- C9: promisify produces exactly one settlement: whichever completion
signal the engine fires first decides the promise, success or complete
resolving with the handle's result (undefined, i.e. none, for a bare
transaction handle), error or abort rejecting with the handle's error; any
later duplicate signal leaves the settled state untouched, and after at
least one signal the promise is no longer pending. -/
theorem C9_promisify_single_settlement {V E : Type} (h : ReqHandle V E)
    (sig : Signal) (rest : List Signal) :
    promisifyRun h (sig :: rest) = promisifyStep h .pending sig ∧
    promisifyStep h .pending .success = .resolved h.result ∧
    promisifyStep h .pending .complete = .resolved h.result ∧
    promisifyStep h .pending .error = .rejected h.error ∧
    promisifyStep h .pending .abort = .rejected h.error ∧
    promisifyRun h (sig :: rest) ≠ .pending := by
  have hfirst : promisifyRun h (sig :: rest) = promisifyStep h .pending sig := by
    rw [promisifyRun, List.foldl_cons]
    exact foldl_promisifyStep_settled h (promisifyStep_pending_ne h sig) rest
  exact ⟨hfirst, rfl, rfl, rfl, rfl,
    hfirst ▸ promisifyStep_pending_ne h sig⟩

/-- C9, witness: with a successful request whose result is 5, the first
signal settles the promise and later complete and error signals change
nothing. -/
theorem C9_promisify_single_settlement_witness :
    promisifyRun (⟨some 5, "e"⟩ : ReqHandle Nat String)
        [Signal.success, Signal.complete, Signal.error]
      = promisifyStep ⟨some 5, "e"⟩ .pending Signal.success ∧
    promisifyStep (⟨some 5, "e"⟩ : ReqHandle Nat String) .pending
        Signal.complete = .resolved (some 5) :=
  ⟨(C9_promisify_single_settlement ⟨some 5, "e"⟩ .success
      [.complete, .error]).1,
   (C9_promisify_single_settlement ⟨some 5, "e"⟩ .success
      [.complete, .error]).2.2.1⟩

/-- C10: the read operations, get, getByIndex, getMany, cursor,
cursorIndex, getAll and getAllByIndex, all declare read-only mode; and
every operation whose declared mode is read-only opens its one transaction
in read-only mode and leaves the store's records exactly unchanged. -/
theorem C10_readonly_ops_preserve_records {V : Type} :
    (∀ (k : Key), (OpCall.get (V := V) k).mode = Mode.readonly) ∧
    (∀ ixn value, (OpCall.getByIndex (V := V) ixn value).mode = Mode.readonly) ∧
    (∀ ks, (OpCall.getMany (V := V) ks).mode = Mode.readonly) ∧
    (∀ range, (OpCall.cursor (V := V) range).mode = Mode.readonly) ∧
    (∀ ixn range, (OpCall.cursorIndex (V := V) ixn range).mode = Mode.readonly) ∧
    (∀ range, (OpCall.getAll (V := V) range).mode = Mode.readonly) ∧
    (∀ ixn range, (OpCall.getAllByIndex (V := V) ixn range).mode = Mode.readonly) ∧
    ∀ (c : OpCall V) (h : IDBStore) (st : EngineState V),
      c.mode = Mode.readonly →
      (runOp c h.register st).2.records = st.records ∧
      (runOp c h.register st).2.txnLog = Mode.readonly :: st.txnLog := by
  refine ⟨fun _ => rfl, fun _ _ => rfl, fun _ => rfl, fun _ => rfl,
    fun _ _ => rfl, fun _ => rfl, fun _ _ => rfl, ?_⟩
  intro c h st hmode
  cases c <;> simp_all [runOp, IDBStore.get, IDBStore.getByIndex,
    IDBStore.set, IDBStore.getMany, IDBStore.setMany, IDBStore.update,
    IDBStore.del, IDBStore.clear, IDBStore.cursor, IDBStore.cursorIndex,
    IDBStore.getAll, IDBStore.getAllByIndex, IDBStore.store,
    IDBStore.storeIndex, IDBStore.register, OpCall.mode, Except.map]

/-- C10, witness: getAll over a one-record store leaves the records
unchanged and logs one read-only transaction. -/
theorem C10_readonly_ops_preserve_records_witness :
    (runOp (OpCall.getAll none) (IDBStore.register { name := "s" })
        (natEngine [(1, 2)])).2.records = [(1, 2)] ∧
    (runOp (OpCall.getAll none) (IDBStore.register { name := "s" })
        (natEngine [(1, 2)])).2.txnLog = [Mode.readonly] :=
  (C10_readonly_ops_preserve_records (V := Nat)).2.2.2.2.2.2.2
    (OpCall.getAll none) { name := "s" } (natEngine [(1, 2)]) (by decide)

end IdbSpec
